import Mathlib

/-!
Shallow embedding of the conversation-metrics engine of the repository
(per-tool precision/recall/F1/omission, tool criticality, sequence
compliance, complexity buckets), translated from the Python sources
under src/tau2_ext/metrics and src/tau2_ext/data_processing.
-/

/-- Argument mapping of a tool invocation: a Python dict with string
keys.  Values are modelled opaquely as strings; matching compares them
by exact equality, as the source does. -/
abbrev Args := List (String × String)

/-- Dict access on an argument mapping: the first binding of the key
wins (Python dict keys are unique, so a well-formed mapping has at most
one binding per key). -/
def lookupArg (args : Args) (k : String) : Option String :=
  (args.find? (fun p => p.1 = k)).map (fun p => p.2)

/-- One tool invocation record.  The field name is None when the
"name" entry of the dict is missing, mirroring x.get("name"); the
field arguments is x.get("arguments") with the default empty mapping
already applied. -/
structure ToolInvocation where
  name : Option String
  arguments : Args
deriving DecidableEq, Repr

/-- The tool name as the analyses read it: x.get("name", "") -- an
absent name degrades to the empty string. -/
def getName (t : ToolInvocation) : String :=
  t.name.getD ""

/-- Schema catalog: domain name to a list of (tool name, key-argument
names) pairs, as produced by ToolSchemaLoader._load_all_domain_schemas. -/
abbrev DomainSchemas := List (String × List (String × List String))

/-- Raw catalog lookup for one tool; none when the domain or the tool
is absent from the catalog (the SchemaLookupMiss case). -/
def lookupToolSchema (schemas : DomainSchemas) (domain tool_name : String) :
    Option (List String) :=
  ((((schemas.find? (fun p => p.1 = domain)).map (fun p => p.2)).getD []).find?
      (fun p => p.1 = tool_name)).map (fun p => p.2)

/-- ToolSchemaLoader.get_tool_schema: schemas.get(domain) then
get(tool_name) with the empty list as default at both levels. -/
def get_tool_schema (schemas : DomainSchemas) (domain tool_name : String) :
    List String :=
  (lookupToolSchema schemas domain tool_name).getD []

/-- One schema key agrees between an expected and an executed argument
mapping: k in exp_args and k in act_args and exp_args[k] == act_args[k]. -/
def keyMatch (exp act : Args) (k : String) : Bool :=
  match lookupArg exp k, lookupArg act k with
  | some v, some w => v == w
  | _, _ => false

/-- PerToolPRFMetric._args_match (same body as
ToolCriticalityMetric._args_match): every key of the tool schema must
agree. -/
def args_match (schemas : DomainSchemas) (domain tool_name : String)
    (exp act : Args) : Bool :=
  (get_tool_schema schemas domain tool_name).all (keyMatch exp act)

/-- One step of the inner loop of _greedy_match_tools: scan the executed
invocations (each carrying its used flag) for the first one that is not
yet used and matches, and mark it used.  Returns none when no unused
invocation matches. -/
def markFirst (p : Args → Bool) : List (Bool × Args) → Option (List (Bool × Args))
  | [] => none
  | (u, a) :: rest =>
    if !u && p a then some ((true, a) :: rest)
    else (markFirst p rest).map (fun r => (u, a) :: r)

/-- Outer loop of _greedy_match_tools over the expected invocations:
each expected invocation that finds an unused matching executed
invocation contributes one true positive and consumes it. -/
def greedyAux (p : Args → Args → Bool) : List Args → List (Bool × Args) → Nat
  | [], _ => 0
  | g :: gs, exs =>
    match markFirst (p g) exs with
    | some exs2 => greedyAux p gs exs2 + 1
    | none => greedyAux p gs exs

/-- PerToolPRFMetric._greedy_match_tools: count true positives by greedy
matching of expected against executed argument mappings (the used array
starts all-False). -/
def greedy_match_tools (schemas : DomainSchemas) (gt_list ex_list : List Args)
    (tool_name domain : String) : Nat :=
  greedyAux (fun g e => args_match schemas domain tool_name g e) gt_list
    (ex_list.map (fun a => (false, a)))

/-- One conversation row of the prepared dataframe, with the fields the
metrics read (row.get defaults already applied; a missing or null tool
list is already the empty list, as in "row.get(...) or []"). -/
structure ConversationRecord where
  task_id : String
  trial_id : String
  success : Bool
  domain : String
  exp_plan_len : Nat
  gt_tools : List ToolInvocation
  executed_tools : List ToolInvocation
deriving DecidableEq, Repr

/-- Key set of group_tools_by_name: every invocation is keyed by
x.get("name", ""), so an absent name is grouped under the empty string.
Only the set of keys matters to the claims (Python dict order keeps the
first occurrence, List.dedup keeps the last; membership coincides). -/
def group_keys (tools : List ToolInvocation) : List String :=
  (tools.map getName).dedup

/-- The group of group_tools_by_name for one name: the argument mappings
of the invocations carrying that name, in list order. -/
def grouped_args (tools : List ToolInvocation) (tool_name : String) : List Args :=
  (tools.filter (fun t => getName t = tool_name)).map (fun t => t.arguments)

/-- One per-conversation, per-tool count row appended by
PerToolPRFMetric.calculate before aggregation. -/
structure RawCount where
  tool : String
  tp : Nat
  fp : Nat
  fn : Nat
  requires_tool : Nat
deriving DecidableEq, Repr

/-- The body of the conversation loop of PerToolPRFMetric.calculate:
for every tool name appearing in either group, greedy-match and derive
tp, fp = max(0, executed - tp), fn = max(0, expected - tp) (Nat
subtraction is truncated, which is exactly the max(0, _)), and
requires_tool = 1 iff the expected group is non-empty. -/
def conv_prf_rows (schemas : DomainSchemas) (c : ConversationRecord) :
    List RawCount :=
  let all_tools := (group_keys c.gt_tools ++ group_keys c.executed_tools).dedup
  all_tools.map (fun tool =>
    let gt_list := grouped_args c.gt_tools tool
    let ex_list := grouped_args c.executed_tools tool
    let tp := greedy_match_tools schemas gt_list ex_list tool c.domain
    { tool := tool, tp := tp, fp := ex_list.length - tp, fn := gt_list.length - tp,
      requires_tool := if gt_list.length > 0 then 1 else 0 })

/-- One row of the aggregated per-tool PRF table.  A ratio whose pandas
value is NaN (zero denominator, propagated) is modelled as none. -/
structure PRFRow where
  tool : String
  tp : Nat
  fp : Nat
  fn : Nat
  requires_tool : Nat
  precision : Option ℚ
  «recall» : Option ℚ
  f1 : Option ℚ
  omission_rate : Option ℚ
deriving DecidableEq, Repr

/-- PerToolPRFMetric._calculate_prf_metrics applied to one aggregated
row: tp/(tp+fp) and tp/(tp+fn) with a zero denominator replaced by NaN
before dividing, f1 = 2PR/(P+R) which propagates NaN and is NaN when
P+R = 0 (the 0/0 case), and fn/requires_tool with the same zero
replacement. -/
def calc_prf_row (tool : String) (tp fp fn requires_tool : Nat) : PRFRow :=
  let precision : Option ℚ :=
    if tp + fp = 0 then none else some ((tp : ℚ) / ((tp : ℚ) + (fp : ℚ)))
  let «recall» : Option ℚ :=
    if tp + fn = 0 then none else some ((tp : ℚ) / ((tp : ℚ) + (fn : ℚ)))
  let f1 : Option ℚ :=
    match precision, «recall» with
    | some p, some r => if p + r = 0 then none else some (2 * (p * r) / (p + r))
    | _, _ => none
  let omission : Option ℚ :=
    if requires_tool = 0 then none else some ((fn : ℚ) / (requires_tool : ℚ))
  { tool := tool, tp := tp, fp := fp, fn := fn, requires_tool := requires_tool,
    precision := precision, «recall» := «recall», f1 := f1, omission_rate := omission }

/-- All raw count rows of the dataset, in conversation order. -/
def prf_raw_rows (schemas : DomainSchemas) (data : List ConversationRecord) :
    List RawCount :=
  data.flatMap (conv_prf_rows schemas)

/-- Column sum of the groupby("tool") aggregation for one tool. -/
def prf_sum (rows : List RawCount) (f : RawCount → Nat) (tool : String) : Nat :=
  ((rows.filter (fun r => r.tool = tool)).map f).sum

/-- PerToolPRFMetric.calculate.  pd.DataFrame(rows) over an empty rows
list has no "tool" column, so groupby("tool") raises KeyError: the
fallible aggregation is modelled with Except.  Otherwise the rows are
summed per tool and _calculate_prf_metrics derives the ratio columns
(groupby sorts the keys; only the key set is relevant to the claims,
so the deduplicated first-seen key list stands in for it). -/
def per_tool_prf_calculate (schemas : DomainSchemas)
    (data : List ConversationRecord) : Except String (List PRFRow) :=
  let rows := prf_raw_rows schemas data
  if rows.isEmpty then Except.error "KeyError: tool"
  else
    let tools := (rows.map (fun r => r.tool)).dedup
    Except.ok (tools.map (fun t =>
      calc_prf_row t (prf_sum rows (fun r => r.tp) t) (prf_sum rows (fun r => r.fp) t)
        (prf_sum rows (fun r => r.fn) t) (prf_sum rows (fun r => r.requires_tool) t)))

/-- One per-conversation, per-tool correctness flag appended by
ToolCriticalityMetric.calculate (and by
MetricsCalculator.calculate_tool_criticality): correct and success are
the Python ints 0/1. -/
structure TCIFlag where
  tool : String
  correct : Nat
  success : Nat
deriving DecidableEq, Repr

/-- Body of the conversation loop of ToolCriticalityMetric.calculate.
The tool keys come from set(gt_names) where gt_names uses the default
empty string; the argument lists and the executed candidates are then
filtered by g.get("name") == tool, which an invocation with a missing
name never satisfies (None is not equal to any string). -/
def conv_tci_flags (schemas : DomainSchemas) (c : ConversationRecord) :
    List TCIFlag :=
  let gt_names := c.gt_tools.map getName
  gt_names.dedup.map (fun tool =>
    let gt_args_list := (c.gt_tools.filter (fun g => g.name = some tool)).map
      (fun g => g.arguments)
    let correct :=
      if gt_args_list.any (fun gargs =>
          (c.executed_tools.filter (fun e => e.name = some tool)).any
            (fun e => args_match schemas c.domain tool gargs e.arguments))
      then 1 else 0
    { tool := tool, correct := correct, success := if c.success then 1 else 0 })

/-- The full flags table f of ToolCriticalityMetric.calculate. -/
def tciFlags (schemas : DomainSchemas) (data : List ConversationRecord) :
    List TCIFlag :=
  data.flatMap (conv_tci_flags schemas)

/-- tool_data: the flag rows of one tool. -/
def tci_td (schemas : DomainSchemas) (data : List ConversationRecord)
    (tool : String) : List TCIFlag :=
  (tciFlags schemas data).filter (fun r => r.tool = tool)

/-- correct_data: the flag rows of one tool with correct == 1. -/
def tci_cd (schemas : DomainSchemas) (data : List ConversationRecord)
    (tool : String) : List TCIFlag :=
  (tci_td schemas data tool).filter (fun r => r.correct = 1)

/-- incorrect_data: the flag rows of one tool with correct == 0. -/
def tci_icd (schemas : DomainSchemas) (data : List ConversationRecord)
    (tool : String) : List TCIFlag :=
  (tci_td schemas data tool).filter (fun r => r.correct = 0)

/-- n_correct of one tool. -/
def tci_n_correct (schemas : DomainSchemas) (data : List ConversationRecord)
    (tool : String) : Nat :=
  (tci_cd schemas data tool).length

/-- n_incorrect of one tool. -/
def tci_n_incorrect (schemas : DomainSchemas) (data : List ConversationRecord)
    (tool : String) : Nat :=
  (tci_icd schemas data tool).length

/-- One row of the basic TCI table (no interval columns). -/
structure TCIRow where
  tool : String
  TCI : ℚ
  p_correct : ℚ
  p_incorrect : ℚ
  n_correct : Nat
  n_incorrect : Nat
deriving DecidableEq, Repr

/-- Body of the per-tool loop of ToolCriticalityMetric.calculate: a row
is appended only under n_correct > 0 or n_incorrect > 0, the partition
mean of the 0/1 success column standing for .mean() with the 0.0
fallback for an empty partition. -/
def tci_row_for (schemas : DomainSchemas) (data : List ConversationRecord)
    (tool : String) : Option TCIRow :=
  let n_correct := tci_n_correct schemas data tool
  let n_incorrect := tci_n_incorrect schemas data tool
  if 0 < n_correct ∨ 0 < n_incorrect then
    let p_correct : ℚ :=
      if 0 < n_correct then
        (((tci_cd schemas data tool).map (fun r => r.success)).sum : ℚ) / (n_correct : ℚ)
      else 0
    let p_incorrect : ℚ :=
      if 0 < n_incorrect then
        (((tci_icd schemas data tool).map (fun r => r.success)).sum : ℚ) / (n_incorrect : ℚ)
      else 0
    some { tool := tool, TCI := p_correct - p_incorrect, p_correct := p_correct,
           p_incorrect := p_incorrect, n_correct := n_correct,
           n_incorrect := n_incorrect }
  else none

/-- ToolCriticalityMetric.calculate: with no flag rows the result is the
empty table; otherwise one candidate row per distinct tool of the flags
table, in f["tool"].unique order up to the irrelevant key ordering. -/
def tci_calculate (schemas : DomainSchemas) (data : List ConversationRecord) :
    List TCIRow :=
  let f := tciFlags schemas data
  if f.isEmpty then []
  else ((f.map (fun r => r.tool)).dedup).filterMap (tci_row_for schemas data)

/-- MetricsCalculator.KEY_ARGS: key arguments for each tool type. -/
def KEY_ARGS : List (String × List String) :=
  [("get_order_details", ["order_id"]),
   ("cancel_pending_order", ["order_id", "reason"]),
   ("return_delivered_order_items", ["order_id", "item_ids"]),
   ("exchange_delivered_order_items", ["order_id", "item_ids", "new_item_ids"]),
   ("modify_pending_order_items", ["order_id", "item_ids", "new_item_ids"]),
   ("modify_pending_order_address", ["order_id", "address1", "city", "state", "zip"]),
   ("find_user_id_by_email", ["email"]),
   ("find_user_id_by_name_zip", ["first_name", "last_name", "zip"]),
   ("get_user_details", ["user_id"]),
   ("get_product_details", ["product_id"]),
   ("calculate", ["expression"])]

/-- MetricsCalculator._args_match: KEY_ARGS.get(name, []) then the same
all-keys-agree check (no domain parameter). -/
def args_match_calc (tool_name : String) (exp act : Args) : Bool :=
  (((KEY_ARGS.find? (fun p => p.1 = tool_name)).map (fun p => p.2)).getD []).all
    (keyMatch exp act)

/-- Conversation loop body of MetricsCalculator.calculate_tool_criticality:
identical to conv_tci_flags but with the KEY_ARGS matcher. -/
def conv_tci_flags_calc (c : ConversationRecord) : List TCIFlag :=
  let gt_names := c.gt_tools.map getName
  gt_names.dedup.map (fun tool =>
    let gt_args_list := (c.gt_tools.filter (fun g => g.name = some tool)).map
      (fun g => g.arguments)
    let correct :=
      if gt_args_list.any (fun gargs =>
          (c.executed_tools.filter (fun e => e.name = some tool)).any
            (fun e => args_match_calc tool gargs e.arguments))
      then 1 else 0
    { tool := tool, correct := correct, success := if c.success then 1 else 0 })

/-- Flags table of the confidence-interval mode. -/
def tciFlagsCalc (data : List ConversationRecord) : List TCIFlag :=
  data.flatMap conv_tci_flags_calc

/-- tool_data of the confidence-interval mode. -/
def tciC_td (data : List ConversationRecord) (tool : String) : List TCIFlag :=
  (tciFlagsCalc data).filter (fun r => r.tool = tool)

/-- correct_data of the confidence-interval mode. -/
def tciC_cd (data : List ConversationRecord) (tool : String) : List TCIFlag :=
  (tciC_td data tool).filter (fun r => r.correct = 1)

/-- incorrect_data of the confidence-interval mode. -/
def tciC_icd (data : List ConversationRecord) (tool : String) : List TCIFlag :=
  (tciC_td data tool).filter (fun r => r.correct = 0)

/-- n_correct of the confidence-interval mode. -/
def tciC_n_correct (data : List ConversationRecord) (tool : String) : Nat :=
  (tciC_cd data tool).length

/-- n_incorrect of the confidence-interval mode. -/
def tciC_n_incorrect (data : List ConversationRecord) (tool : String) : Nat :=
  (tciC_icd data tool).length

/-- utils.wilson_ci, with the floating square root abstracted as a
rational-valued parameter (the exact float value of np.sqrt is not
relevant to any claim; the structure of the formula is kept). -/
def wilson_ci (sqrtQ : ℚ → ℚ) (k n : Nat) (z : ℚ) : ℚ × ℚ :=
  if n = 0 then (0, 0)
  else
    let p_hat : ℚ := (k : ℚ) / (n : ℚ)
    let denominator : ℚ := 1 + z ^ 2 / (n : ℚ)
    let centre : ℚ := (p_hat + z * z / (2 * (n : ℚ))) / denominator
    let ase : ℚ := z * sqrtQ ((p_hat * (1 - p_hat) + z * z / (4 * (n : ℚ))) / (n : ℚ)) / denominator
    (max 0 (centre - ase), min 1 (centre + ase))

/-- One row of the confidence-interval TCI table (the scipy name lookup
always fails with AttributeError, so the manual Wilson fallback is the
effective code path). -/
structure TCIRowCI where
  tool : String
  TCI : ℚ
  TCI_ci_lower : ℚ
  TCI_ci_upper : ℚ
  p_correct : ℚ
  p_incorrect : ℚ
  n_correct : Nat
  n_incorrect : Nat
deriving DecidableEq, Repr

/-- Per-tool loop body of MetricsCalculator.calculate_tool_criticality:
a row is appended only under n_correct > 0 and n_incorrect > 0; a tool
with one empty partition produces nothing. -/
def tciC_row_for (sqrtQ : ℚ → ℚ) (data : List ConversationRecord)
    (tool : String) : Option TCIRowCI :=
  let n_correct := tciC_n_correct data tool
  let n_incorrect := tciC_n_incorrect data tool
  if 0 < n_correct ∧ 0 < n_incorrect then
    let k_correct : Nat := ((tciC_cd data tool).map (fun r => r.success)).sum
    let k_incorrect : Nat := ((tciC_icd data tool).map (fun r => r.success)).sum
    let p_correct : ℚ := (k_correct : ℚ) / (n_correct : ℚ)
    let p_incorrect : ℚ := (k_incorrect : ℚ) / (n_incorrect : ℚ)
    let tci := p_correct - p_incorrect
    let z : ℚ := 196 / 100
    let ci_correct := wilson_ci sqrtQ k_correct n_correct z
    let ci_incorrect := wilson_ci sqrtQ k_incorrect n_incorrect z
    let var_correct := (ci_correct.2 - ci_correct.1) ^ 2 / (4 * z ^ 2)
    let var_incorrect := (ci_incorrect.2 - ci_incorrect.1) ^ 2 / (4 * z ^ 2)
    let tci_se := sqrtQ (var_correct + var_incorrect)
    some { tool := tool, TCI := tci, TCI_ci_lower := tci - z * tci_se,
           TCI_ci_upper := tci + z * tci_se, p_correct := p_correct,
           p_incorrect := p_incorrect, n_correct := n_correct,
           n_incorrect := n_incorrect }
  else none

/-- MetricsCalculator.calculate_tool_criticality (confidence-interval
mode). -/
def tci_calculate_ci (sqrtQ : ℚ → ℚ) (data : List ConversationRecord) :
    List TCIRowCI :=
  let f := tciFlagsCalc data
  if f.isEmpty then []
  else ((f.map (fun r => r.tool)).dedup).filterMap (tciC_row_for sqrtQ data)

/-- utils.tool_seq: the ordered tool names of a list, keeping only
invocations whose name is present and truthy (the empty string is
falsy in Python, so empty and missing names are both dropped). -/
def tool_seq (lst : List ToolInvocation) : List String :=
  lst.filterMap (fun x => if x.name.getD "" = "" then none else some (x.name.getD ""))

/-- The dynamic-programming table of utils.levenshtein as a function of
its two indices: dp i 0 = i and dp 0 j = j are the base rows, and the
cell (i+1, j+1) is filled from the three earlier cells with the
unit-cost recurrence, the substitution cost comparing a[i] and b[j]
(source indices a[i-1], b[j-1]).  The loops fill cells in increasing
index order, so the table value is exactly this recurrence. -/
def levDP (a b : List String) : Nat → Nat → Nat
  | 0, j => j
  | i + 1, 0 => i + 1
  | i + 1, j + 1 =>
    min (levDP a b i (j + 1) + 1)
      (min (levDP a b (i + 1) j + 1)
        (levDP a b i j + (if a.getD i "" = b.getD j "" then 0 else 1)))
termination_by i j => (i, j)

/-- utils.levenshtein: the bottom-right cell dp[m][n] (named
levenshtein_dist here because Mathlib already declares levenshtein). -/
def levenshtein_dist (a b : List String) : Nat :=
  levDP a b a.length b.length

/-- The dict comprehension ex_index built by
SequenceComplianceMetric.calculate: successive insertion of (name, i)
pairs with the running index starting at start, a later binding of the
same name overwriting an earlier one. -/
def buildIndexFrom (start : Nat) : List String → (String → Option Nat) → String → Option Nat
  | [], m => m
  | nm :: rest, m =>
    buildIndexFrom (start + 1) rest (fun q => if q = nm then some start else m q)

/-- ex_index as a lookup function (empty dict as the starting state). -/
def buildIndex (ex_names : List String) : String → Option Nat :=
  buildIndexFrom 0 ex_names (fun _ => none)

/-- The pos_dev loop: walk gt_names with its running position i, and
for every name found in the index record abs(ex_index[name] - i). -/
def posDevFrom (index : String → Option Nat) (i : Nat) : List String → List Nat
  | [] => []
  | nm :: rest =>
    match index nm with
    | some j => ((j : ℤ) - (i : ℤ)).natAbs :: posDevFrom index (i + 1) rest
    | none => posDevFrom index (i + 1) rest

/-- One row of the sequence-compliance table. -/
structure ComplianceRow where
  task_id : String
  trial_id : String
  success : Nat
  nPED : ℚ
  PD : Option ℚ
  exp_plan_len : Nat
  domain : String
deriving DecidableEq, Repr

/-- Body of the conversation loop of SequenceComplianceMetric.calculate:
nPED = levenshtein / max(1, len(gt_names)) and PD the mean of the
recorded position deviations, NaN (none) when none were recorded. -/
def sequence_compliance_row (c : ConversationRecord) : ComplianceRow :=
  let gt_names := tool_seq c.gt_tools
  let ex_names := tool_seq c.executed_tools
  let ped := levenshtein_dist gt_names ex_names
  let nPED : ℚ := (ped : ℚ) / ((max 1 gt_names.length : Nat) : ℚ)
  let pos_dev := posDevFrom (buildIndex ex_names) 0 gt_names
  let PD : Option ℚ :=
    if pos_dev.isEmpty then none
    else some ((pos_dev.sum : ℚ) / (pos_dev.length : ℚ))
  { task_id := c.task_id, trial_id := c.trial_id,
    success := if c.success then 1 else 0, nPED := nPED, PD := PD,
    exp_plan_len := c.exp_plan_len, domain := c.domain }

/-- SequenceComplianceMetric.calculate: one row per conversation. -/
def sequence_compliance_calculate (data : List ConversationRecord) :
    List ComplianceRow :=
  data.map sequence_compliance_row

/-- Modelled from the spec words of the position-deviation step: the
position of the first occurrence of a name in the executed sequence
(running position starting at start). -/
def firstOccFrom (start : Nat) : List String → String → Option Nat
  | [], _ => none
  | nm :: rest, q => if q = nm then some start else firstOccFrom (start + 1) rest q

/-- Modelled from the spec words (claim C3): PD computed from the first
occurrence of each executed name. -/
def pd_spec_first (gt_names ex_names : List String) : Option ℚ :=
  let pos_dev := posDevFrom (fun q => firstOccFrom 0 ex_names q) 0 gt_names
  if pos_dev.isEmpty then none
  else some ((pos_dev.sum : ℚ) / (pos_dev.length : ℚ))

/-- The position of the last occurrence of a name in the executed
sequence (running position starting at start): what the implemented
dict comprehension actually indexes. -/
def lastOccFrom (start : Nat) : List String → String → Option Nat
  | [], _ => none
  | nm :: rest, q =>
    match lastOccFrom (start + 1) rest q with
    | some j => some j
    | none => if q = nm then some start else none

/-- PD computed from the last occurrence of each executed name: the
amended reading of the position-deviation step. -/
def pd_spec_last (gt_names ex_names : List String) : Option ℚ :=
  let pos_dev := posDevFrom (fun q => lastOccFrom 0 ex_names q) 0 gt_names
  if pos_dev.isEmpty then none
  else some ((pos_dev.sum : ℚ) / (pos_dev.length : ℚ))

/-- The complexity buckets of ComplexityMetrics.calculate_bucket_pass1. -/
inductive Bucket where
  | simple
  | medium
  | complex
deriving DecidableEq, Repr

/-- The bin assignment of pd.cut(exp_plan_len, bins=[0, 2, 5, 1e9],
labels=[simple, medium, complex], include_lowest=True): right-closed
intervals, the lowest edge included, and a value beyond the top edge
1e9 falling outside every bin (the NaN bin, modelled as none).  Plan
lengths are naturals, so the below-zero NaN case cannot arise. -/
def bucketOf (len : Nat) : Option Bucket :=
  if len ≤ 2 then some Bucket.simple
  else if len ≤ 5 then some Bucket.medium
  else if len ≤ 1000000000 then some Bucket.complex
  else none

/-- ComplexityMetrics.calculate_bucket_pass1: groupby over the
categorical bins keeps all three labels (observed categories or not),
the mean of the 0/1 success column over an empty bucket being NaN
(none).  Rows outside every bin belong to no bucket. -/
def bucket_pass1 (data : List ConversationRecord) : List (Bucket × Option ℚ) :=
  [Bucket.simple, Bucket.medium, Bucket.complex].map (fun b =>
    let members := data.filter (fun c => bucketOf c.exp_plan_len = some b)
    (b, if members.isEmpty then none
        else some (((members.countP (fun c => c.success)) : ℚ) / (members.length : ℚ))))

/-- Shorthand for an invocation with a present name. -/
def namedInv (nm : String) (a : Args) : ToolInvocation :=
  { name := some nm, arguments := a }

/-- A conversation whose expected and executed entries both lack a
name field. -/
def convNoName : ConversationRecord :=
  { task_id := "t", trial_id := "0", success := false, domain := "d",
    exp_plan_len := 0, gt_tools := [{ name := none, arguments := [] }],
    executed_tools := [{ name := none, arguments := [] }] }

/-- Dataset with only convNoName. -/
def dataNoName : List ConversationRecord := [convNoName]

/-- Expected plan uses tool a once; the executed trace calls a twice. -/
def convRepeat : ConversationRecord :=
  { task_id := "t", trial_id := "0", success := true, domain := "d",
    exp_plan_len := 1, gt_tools := [namedInv "a" []],
    executed_tools := [namedInv "a" [], namedInv "a" []] }

/-- Expected plan uses tool a once, matched correctly once. -/
def convMatched : ConversationRecord :=
  { task_id := "t", trial_id := "0", success := true, domain := "d",
    exp_plan_len := 1, gt_tools := [namedInv "a" []],
    executed_tools := [namedInv "a" []] }

/-- Dataset with only convMatched. -/
def dataMatched : List ConversationRecord := [convMatched]

/-- Expected plan uses tool a once; nothing is executed. -/
def convOmitted : ConversationRecord :=
  { task_id := "t", trial_id := "0", success := false, domain := "d",
    exp_plan_len := 1, gt_tools := [namedInv "a" []], executed_tools := [] }

/-- Dataset with only convOmitted. -/
def dataOmitted : List ConversationRecord := [convOmitted]

/-- No usable expected names (the single entry has no name), two
executed calls. -/
def convEmptyPlan : ConversationRecord :=
  { task_id := "t", trial_id := "0", success := false, domain := "d",
    exp_plan_len := 0, gt_tools := [{ name := none, arguments := [] }],
    executed_tools := [namedInv "x" [], namedInv "y" []] }

lemma markFirst_countFalse (p : Args → Bool) :
    ∀ exs exs2, markFirst p exs = some exs2 →
      exs2.countP (fun x => !x.1) + 1 = exs.countP (fun x => !x.1) := by
  intro exs
  induction exs with
  | nil => intro exs2 h; simp [markFirst] at h
  | cons hd tl ih =>
    intro exs2 h
    obtain ⟨u, a⟩ := hd
    rw [markFirst] at h
    by_cases hc : (!u && p a) = true
    · rw [if_pos hc] at h
      injection h with h
      subst h
      have hu : u = false := by cases u <;> simp_all
      subst hu
      simp [List.countP_cons]
    · rw [if_neg hc] at h
      cases hmt : markFirst p tl with
      | none => rw [hmt] at h; exact absurd h (by simp)
      | some r =>
        rw [hmt] at h
        simp only [Option.map_some'] at h
        injection h with h
        subst h
        have := ih r hmt
        simp [List.countP_cons]
        omega

lemma greedyAux_le_countFalse (p : Args → Args → Bool) :
    ∀ gs exs, greedyAux p gs exs ≤ exs.countP (fun x => !x.1) := by
  intro gs
  induction gs with
  | nil => intro exs; simp [greedyAux]
  | cons g gs ih =>
    intro exs
    cases hm : markFirst (p g) exs with
    | none => simpa [greedyAux, hm] using ih exs
    | some exs2 =>
      have hcount := markFirst_countFalse (p g) exs exs2 hm
      have := ih exs2
      simp only [greedyAux, hm]
      omega

lemma greedyAux_le_length (p : Args → Args → Bool) :
    ∀ gs exs, greedyAux p gs exs ≤ gs.length := by
  intro gs
  induction gs with
  | nil => intro exs; simp [greedyAux]
  | cons g gs ih =>
    intro exs
    cases hm : markFirst (p g) exs with
    | none =>
      calc greedyAux p (g :: gs) exs = greedyAux p gs exs := by simp [greedyAux, hm]
        _ ≤ gs.length := ih exs
        _ ≤ (g :: gs).length := by simp
    | some exs2 =>
      have := ih exs2
      simp only [greedyAux, hm, List.length_cons]
      omega

lemma countFalse_initial (ex_list : List Args) :
    (ex_list.map (fun a => (false, a))).countP (fun x => !x.1) = ex_list.length := by
  induction ex_list with
  | nil => simp
  | cons a l ih => simp [List.countP_cons, ih]

/-- C1: the greedy matcher never reports more matches than either side
has invocations: 0 ≤ matched_count ≤ min(len(expected), len(executed)),
for every schema catalog, tool name, domain, and pair of per-tool
argument lists. -/
theorem greedy_match_tools_le_min (schemas : DomainSchemas)
    (tool_name domain : String) (gt_list ex_list : List Args) :
    0 ≤ greedy_match_tools schemas gt_list ex_list tool_name domain ∧
      greedy_match_tools schemas gt_list ex_list tool_name domain ≤
        min gt_list.length ex_list.length := by
  refine ⟨Nat.zero_le _, Nat.le_min.mpr ⟨?_, ?_⟩⟩
  · exact greedyAux_le_length _ gt_list _
  · have h := greedyAux_le_countFalse
      (fun g e => args_match schemas domain tool_name g e) gt_list
      (ex_list.map (fun a => (false, a)))
    rw [countFalse_initial] at h
    exact h

/-- C4: the engine does not survive the completely empty dataset: the
per-tool PRF aggregation groups an empty row list by the missing tool
column and fails (pandas KeyError), while the TCI calculation returns
the empty table as the claim says. -/
theorem empty_dataset_prf_raises :
    per_tool_prf_calculate [] [] = Except.error "KeyError: tool" ∧
      tci_calculate [] [] = [] := by
  exact ⟨rfl, rfl⟩

/-- C5: a schema catalog miss (tool absent from the domain, or domain
absent altogether) makes the argument-equality predicate accept every
pair of argument mappings for that tool name. -/
theorem schema_miss_matches_all (schemas : DomainSchemas)
    (domain tool_name : String)
    (h : lookupToolSchema schemas domain tool_name = none) :
    ∀ exp act : Args, args_match schemas domain tool_name exp act = true := by
  intro exp act
  simp [args_match, get_tool_schema, h]

/-- Witness for C5 at a concrete empty catalog and non-trivial
argument mappings. -/
theorem schema_miss_matches_all_witness :
    args_match [] "airline" "book_flight" [("seat", "12A")] [] = true :=
  schema_miss_matches_all [] "airline" "book_flight" rfl [("seat", "12A")] []

/-- C9 counterexample: a conversation whose expected plan length
exceeds the top bin edge 1e9 of pd.cut is longer than 5 yet is assigned
no bucket at all, not the complex bucket. -/
theorem bucket_counterexample :
    5 < 1000000001 ∧ bucketOf 1000000001 = none ∧
      bucketOf 1000000001 ≠ some Bucket.complex := by
  refine ⟨by norm_num, by decide, by decide⟩

/-- C3 counterexample: with expected names [a] and executed names
[a, a], the implemented index maps a to its last position 1, so the
reported PD is 1, while the first-occurrence reading of the spec gives
PD = 0. -/
theorem pd_first_occurrence_counterexample :
    (sequence_compliance_row convRepeat).PD = some 1 ∧
      pd_spec_first (tool_seq convRepeat.gt_tools)
        (tool_seq convRepeat.executed_tools) = some 0 := by
  constructor
  · show (if ([1] : List Nat).isEmpty then (none : Option ℚ)
        else some ((([1] : List Nat).sum : ℚ) / (([1] : List Nat).length : ℚ))) = some 1
    norm_num
  · show (if ([0] : List Nat).isEmpty then (none : Option ℚ)
        else some ((([0] : List Nat).sum : ℚ) / (([0] : List Nat).length : ℚ))) = some 0
    norm_num

/-- C2 counterexample: a dataset whose invocations all lack a name
still produces a per-tool PRF row and a TCI row keyed by the empty
string. -/
theorem empty_name_counterexample :
    (per_tool_prf_calculate [] dataNoName).toOption.map (fun tb => tb.map (fun r => r.tool)) =
        some [""] ∧
      (tci_calculate [] dataNoName).map (fun r => r.tool) = [""] := by
  decide

/-- C7 counterexample: tool a appears in the expected plan with a
non-empty correct partition and an empty incorrect partition; the basic
TCI table reports its point estimate, but the confidence-interval mode
drops the tool entirely instead of reporting the point estimate without
an interval. -/
theorem tci_ci_mode_counterexample :
    tci_calculate_ci (fun _ => 0) dataMatched = [] ∧
      tciC_n_correct dataMatched "a" = 1 ∧
      tciC_n_incorrect dataMatched "a" = 0 ∧
      (tci_calculate [] dataMatched).map (fun r => r.tool) = ["a"] := by
  decide

lemma levDP_zero_left (a b : List String) (j : Nat) : levDP a b 0 j = j := by
  rw [levDP]

lemma levDP_symm (a b : List String) : ∀ i j, levDP a b i j = levDP b a j i := by
  intro i
  induction i with
  | zero =>
    intro j
    cases j with
    | zero => rw [levDP, levDP]
    | succ j => rw [levDP, levDP]
  | succ i ih =>
    intro j
    induction j with
    | zero => rw [levDP, levDP]
    | succ j ihj =>
      rw [levDP]
      conv_rhs => rw [levDP]
      rw [ih (j + 1), ihj, ih j]
      have hc : (if a.getD i "" = b.getD j "" then 0 else 1) =
          (if b.getD j "" = a.getD i "" then 0 else 1) := by
        by_cases h : a.getD i "" = b.getD j ""
        · rw [if_pos h, if_pos h.symm]
        · rw [if_neg h, if_neg (fun he => h he.symm)]
      rw [hc]
      omega

lemma levDP_eq_zero_iff (a b : List String) :
    ∀ i j, levDP a b i j = 0 ↔
      (i = j ∧ ∀ k, k < i → a.getD k "" = b.getD k "") := by
  intro i
  induction i with
  | zero =>
    intro j
    cases j with
    | zero => simp [levDP_zero_left]
    | succ j => simp [levDP_zero_left]
  | succ i ih =>
    intro j
    cases j with
    | zero =>
      rw [levDP]
      constructor
      · intro h; omega
      · rintro ⟨h, -⟩; omega
    | succ j =>
      rw [levDP]
      constructor
      · intro h
        have h3 : levDP a b i j + (if a.getD i "" = b.getD j "" then 0 else 1) = 0 := by
          omega
        have hz : levDP a b i j = 0 := by omega
        have hcost : (if a.getD i "" = b.getD j "" then 0 else 1) = 0 := by omega
        have heq : a.getD i "" = b.getD j "" := by
          by_cases hq : a.getD i "" = b.getD j ""
          · exact hq
          · rw [if_neg hq] at hcost; omega
        obtain ⟨hij, hall⟩ := (ih j).mp hz
        refine ⟨by omega, ?_⟩
        intro k hk
        rcases Nat.lt_succ_iff_lt_or_eq.mp hk with hlt | hek
        · exact hall k hlt
        · subst hek; subst hij; exact heq
      · rintro ⟨hij, hall⟩
        have hij2 : i = j := by omega
        subst hij2
        have hz : levDP a b i i = 0 := (ih i).mpr ⟨rfl, fun k hk => hall k (by omega)⟩
        have heq : a.getD i "" = b.getD i "" := hall i (by omega)
        rw [hz, if_pos heq]
        omega

lemma getD_list_eq_iff (a b : List String) :
    (a.length = b.length ∧ ∀ k, k < a.length → a.getD k "" = b.getD k "") ↔ a = b := by
  constructor
  · rintro ⟨hlen, hall⟩
    apply List.ext_getElem hlen
    intro k hk1 hk2
    have := hall k hk1
    rwa [List.getD_eq_getElem a "" hk1, List.getD_eq_getElem b "" hk2] at this
  · rintro rfl
    exact ⟨rfl, fun k _ => rfl⟩

lemma levenshtein_dist_eq_zero_iff (a b : List String) :
    levenshtein_dist a b = 0 ↔ a = b := by
  rw [levenshtein_dist, levDP_eq_zero_iff]
  rw [← getD_list_eq_iff]

lemma seq_row_nPED (c : ConversationRecord) :
    (sequence_compliance_row c).nPED =
      ((levenshtein_dist (tool_seq c.gt_tools) (tool_seq c.executed_tools) : ℚ)) /
        (((max 1 (tool_seq c.gt_tools).length : Nat) : ℚ)) := rfl

/-- C8: the implemented Levenshtein distance is symmetric and vanishes
exactly on equal name sequences; consequently nPED is non-negative for
every conversation and is 0 when the expected and executed name
sequences coincide. -/
theorem levenshtein_symm_zero_iff (a b : List String) (c : ConversationRecord) :
    levenshtein_dist a b = levenshtein_dist b a ∧
      (levenshtein_dist a b = 0 ↔ a = b) ∧
      0 ≤ (sequence_compliance_row c).nPED ∧
      (tool_seq c.gt_tools = tool_seq c.executed_tools →
        (sequence_compliance_row c).nPED = 0) := by
  refine ⟨levDP_symm a b a.length b.length, levenshtein_dist_eq_zero_iff a b, ?_, ?_⟩
  · rw [seq_row_nPED]
    positivity
  · intro h
    rw [seq_row_nPED, h]
    have hz : levenshtein_dist (tool_seq c.executed_tools)
        (tool_seq c.executed_tools) = 0 :=
      (levenshtein_dist_eq_zero_iff _ _).mpr rfl
    rw [hz]
    simp

/-- Witness for C8 at concrete sequences, via the theorem itself. -/
theorem levenshtein_symm_zero_iff_witness :
    levenshtein_dist ["a", "b"] ["a", "b"] = 0 :=
  (levenshtein_symm_zero_iff ["a", "b"] ["a", "b"] convMatched).2.1.mpr rfl

/-- C10: when the expected plan contributes no usable tool names, the
normalizing denominator clamps to 1 and nPED equals the executed
sequence length (no division by zero arises). -/
theorem nPED_empty_plan (c : ConversationRecord)
    (h : tool_seq c.gt_tools = []) :
    (sequence_compliance_row c).nPED = ((tool_seq c.executed_tools).length : ℚ) := by
  rw [seq_row_nPED, h]
  have hlev : levenshtein_dist [] (tool_seq c.executed_tools) =
      (tool_seq c.executed_tools).length :=
    levDP_zero_left [] (tool_seq c.executed_tools) (tool_seq c.executed_tools).length
  rw [hlev]
  simp

/-- Witness for C10: a nameless expected entry with two executed calls
gives nPED = 2, which exceeds 1. -/
theorem nPED_empty_plan_witness :
    (sequence_compliance_row convEmptyPlan).nPED = 2 ∧ (1 : ℚ) < 2 := by
  have h := nPED_empty_plan convEmptyPlan rfl
  have hlen : (tool_seq convEmptyPlan.executed_tools).length = 2 := by decide
  rw [hlen] at h
  exact ⟨by rw [h]; norm_num, by norm_num⟩

lemma buildIndexFrom_eq_lastOcc (l : List String) :
    ∀ start m q, buildIndexFrom start l m q =
      (match lastOccFrom start l q with
       | some j => some j
       | none => m q) := by
  induction l with
  | nil => intro start m q; simp [buildIndexFrom, lastOccFrom]
  | cons nm rest ih =>
    intro start m q
    rw [buildIndexFrom, lastOccFrom]
    rw [ih (start + 1) (fun q2 => if q2 = nm then some start else m q2) q]
    cases lastOccFrom (start + 1) rest q with
    | some j => simp
    | none =>
      by_cases hq : q = nm
      · simp [hq]
      · simp [hq]

lemma posDevFrom_congr (f g : String → Option Nat) (h : ∀ q, f q = g q) :
    ∀ i l, posDevFrom f i l = posDevFrom g i l := by
  intro i l
  induction l generalizing i with
  | nil => simp [posDevFrom]
  | cons nm rest ih =>
    rw [posDevFrom, posDevFrom, h nm]
    cases g nm with
    | some j => rw [ih]
    | none => rw [ih]

/-- C3 amended: the implemented position deviation of every conversation
is the arithmetic mean of the absolute gaps to the LAST occurrence of
each expected name in the executed sequence (the dict comprehension
overwrites earlier indices), undefined when no expected name occurs. -/
theorem pd_is_last_occurrence_mean (c : ConversationRecord) :
    (sequence_compliance_row c).PD =
      pd_spec_last (tool_seq c.gt_tools) (tool_seq c.executed_tools) := by
  have hidx : ∀ q, buildIndex (tool_seq c.executed_tools) q =
      lastOccFrom 0 (tool_seq c.executed_tools) q := by
    intro q
    rw [buildIndex, buildIndexFrom_eq_lastOcc]
    cases lastOccFrom 0 (tool_seq c.executed_tools) q <;> rfl
  show (if (posDevFrom (buildIndex (tool_seq c.executed_tools)) 0
        (tool_seq c.gt_tools)).isEmpty then none
      else some (((posDevFrom (buildIndex (tool_seq c.executed_tools)) 0
          (tool_seq c.gt_tools)).sum : ℚ) /
        ((posDevFrom (buildIndex (tool_seq c.executed_tools)) 0
          (tool_seq c.gt_tools)).length : ℚ))) =
    pd_spec_last (tool_seq c.gt_tools) (tool_seq c.executed_tools)
  rw [posDevFrom_congr _ _ hidx]
  rfl

lemma map_proj_eq {α β : Type} (proj : β → α) (f : α → β)
    (h : ∀ t, proj (f t) = t) : ∀ l : List α, (l.map f).map proj = l := by
  intro l
  induction l with
  | nil => rfl
  | cons a l ih => simp [h, ih]

lemma calc_prf_row_tool (t : String) (a b c d : Nat) :
    (calc_prf_row t a b c d).tool = t := rfl

lemma prf_table_ok (schemas : DomainSchemas) (data : List ConversationRecord)
    (h : prf_raw_rows schemas data ≠ []) :
    per_tool_prf_calculate schemas data =
      Except.ok ((((prf_raw_rows schemas data).map (fun r => r.tool)).dedup).map
        (fun t => calc_prf_row t
          (prf_sum (prf_raw_rows schemas data) (fun r => r.tp) t)
          (prf_sum (prf_raw_rows schemas data) (fun r => r.fp) t)
          (prf_sum (prf_raw_rows schemas data) (fun r => r.fn) t)
          (prf_sum (prf_raw_rows schemas data) (fun r => r.requires_tool) t))) := by
  have hne : (prf_raw_rows schemas data).isEmpty = false := by
    cases hr : prf_raw_rows schemas data
    · exact absurd hr h
    · rfl
  unfold per_tool_prf_calculate
  simp only [hne, Bool.false_eq_true, if_false]

lemma ite_eq_none_iff (P : Prop) [Decidable P] (x : ℚ) :
    ((if P then (none : Option ℚ) else some x) = none) ↔ P := by
  split_ifs with hp
  · simp [hp]
  · simp [hp]

lemma calc_prf_row_props (t : String) (a b c d : Nat) :
    ((calc_prf_row t a b c d).precision = none ↔
        (calc_prf_row t a b c d).tp + (calc_prf_row t a b c d).fp = 0) ∧
      ((calc_prf_row t a b c d).tp + (calc_prf_row t a b c d).fp ≠ 0 →
        (calc_prf_row t a b c d).precision =
          some (((calc_prf_row t a b c d).tp : ℚ) /
            (((calc_prf_row t a b c d).tp : ℚ) + ((calc_prf_row t a b c d).fp : ℚ)))) ∧
      ((calc_prf_row t a b c d).«recall» = none ↔
        (calc_prf_row t a b c d).tp + (calc_prf_row t a b c d).fn = 0) ∧
      ((calc_prf_row t a b c d).tp + (calc_prf_row t a b c d).fn ≠ 0 →
        (calc_prf_row t a b c d).«recall» =
          some (((calc_prf_row t a b c d).tp : ℚ) /
            (((calc_prf_row t a b c d).tp : ℚ) + ((calc_prf_row t a b c d).fn : ℚ)))) ∧
      ((calc_prf_row t a b c d).omission_rate = none ↔
        (calc_prf_row t a b c d).requires_tool = 0) ∧
      ((calc_prf_row t a b c d).requires_tool ≠ 0 →
        (calc_prf_row t a b c d).omission_rate =
          some (((calc_prf_row t a b c d).fn : ℚ) /
            ((calc_prf_row t a b c d).requires_tool : ℚ))) := by
  refine ⟨?_, ?_, ?_, ?_, ?_, ?_⟩
  · exact ite_eq_none_iff (a + b = 0) _
  · intro hne
    show (if a + b = 0 then (none : Option ℚ) else some ((a : ℚ) / ((a : ℚ) + (b : ℚ)))) =
      some ((a : ℚ) / ((a : ℚ) + (b : ℚ)))
    exact if_neg hne
  · exact ite_eq_none_iff (a + c = 0) _
  · intro hne
    show (if a + c = 0 then (none : Option ℚ) else some ((a : ℚ) / ((a : ℚ) + (c : ℚ)))) =
      some ((a : ℚ) / ((a : ℚ) + (c : ℚ)))
    exact if_neg hne
  · exact ite_eq_none_iff (d = 0) _
  · intro hne
    show (if d = 0 then (none : Option ℚ) else some ((c : ℚ) / (d : ℚ))) =
      some ((c : ℚ) / (d : ℚ))
    exact if_neg hne

/-- C6: in every row of the aggregated per-tool PRF table, precision,
recall and omission rate are the undefined marker exactly when their
denominator is zero, and otherwise equal the corresponding ratio of the
summed counts; an undefined value is never turned into 0. -/
theorem prf_undefined_iff (schemas : DomainSchemas)
    (data : List ConversationRecord) (table : List PRFRow)
    (h : per_tool_prf_calculate schemas data = Except.ok table) :
    ∀ row ∈ table,
      (row.precision = none ↔ row.tp + row.fp = 0) ∧
        (row.tp + row.fp ≠ 0 →
          row.precision = some ((row.tp : ℚ) / ((row.tp : ℚ) + (row.fp : ℚ)))) ∧
        (row.«recall» = none ↔ row.tp + row.fn = 0) ∧
        (row.tp + row.fn ≠ 0 →
          row.«recall» = some ((row.tp : ℚ) / ((row.tp : ℚ) + (row.fn : ℚ)))) ∧
        (row.omission_rate = none ↔ row.requires_tool = 0) ∧
        (row.requires_tool ≠ 0 →
          row.omission_rate = some ((row.fn : ℚ) / (row.requires_tool : ℚ))) := by
  intro row hrow
  by_cases hraw : prf_raw_rows schemas data = []
  · rw [per_tool_prf_calculate] at h
    have : (prf_raw_rows schemas data).isEmpty = true := by rw [hraw]; rfl
    rw [this] at h
    exact absurd h (by simp)
  · rw [prf_table_ok schemas data hraw] at h
    injection h with h
    subst h
    rw [List.mem_map] at hrow
    obtain ⟨t, ht, hrowdef⟩ := hrow
    subst hrowdef
    exact calc_prf_row_props t _ _ _ _

/-- Witness for C6 on a one-conversation dataset whose only tool is
expected once and never executed: its precision is undefined, not 0. -/
theorem prf_undefined_iff_witness :
    (calc_prf_row "a" 0 0 1 1).precision = none := by
  have htab : per_tool_prf_calculate [] dataOmitted =
      Except.ok [calc_prf_row "a" 0 0 1 1] := by
    rw [prf_table_ok [] dataOmitted (by decide)]
    rfl
  exact ((prf_undefined_iff [] dataOmitted [calc_prf_row "a" 0 0 1 1] htab)
    (calc_prf_row "a" 0 0 1 1) (List.mem_singleton.mpr rfl)).1.mpr (by decide)

lemma tciFlags_correct01 (schemas : DomainSchemas) (data : List ConversationRecord) :
    ∀ fl ∈ tciFlags schemas data, fl.correct = 0 ∨ fl.correct = 1 := by
  intro fl hfl
  rw [tciFlags, List.mem_flatMap] at hfl
  obtain ⟨c, hc, hfl⟩ := hfl
  simp only [conv_tci_flags, List.mem_map] at hfl
  obtain ⟨tool, htool, hdef⟩ := hfl
  subst hdef
  dsimp only
  split_ifs
  · right; rfl
  · left; rfl

lemma tciFlagsCalc_correct01 (data : List ConversationRecord) :
    ∀ fl ∈ tciFlagsCalc data, fl.correct = 0 ∨ fl.correct = 1 := by
  intro fl hfl
  rw [tciFlagsCalc, List.mem_flatMap] at hfl
  obtain ⟨c, hc, hfl⟩ := hfl
  simp only [conv_tci_flags_calc, List.mem_map] at hfl
  obtain ⟨tool, htool, hdef⟩ := hfl
  subst hdef
  dsimp only
  split_ifs
  · right; rfl
  · left; rfl

lemma filter01_partition (l : List TCIFlag)
    (h : ∀ fl ∈ l, fl.correct = 0 ∨ fl.correct = 1) :
    (l.filter (fun r => r.correct = 1)).length +
      (l.filter (fun r => r.correct = 0)).length = l.length := by
  induction l with
  | nil => rfl
  | cons a l ih =>
    have ha := h a (List.mem_cons_self a l)
    have hrest := fun fl hf => h fl (List.mem_cons_of_mem a hf)
    have hih := ih hrest
    rcases ha with h0 | h1
    · simp [List.filter_cons, h0]
      omega
    · simp [List.filter_cons, h1]
      omega

lemma tci_n_sum_eq (schemas : DomainSchemas) (data : List ConversationRecord)
    (tool : String) :
    tci_n_correct schemas data tool + tci_n_incorrect schemas data tool =
      (tci_td schemas data tool).length := by
  rw [tci_n_correct, tci_n_incorrect, tci_cd, tci_icd]
  exact filter01_partition _ (fun fl hf =>
    tciFlags_correct01 schemas data fl (List.mem_filter.mp hf).1)

lemma tciC_n_sum_eq (data : List ConversationRecord) (tool : String) :
    tciC_n_correct data tool + tciC_n_incorrect data tool =
      (tciC_td data tool).length := by
  rw [tciC_n_correct, tciC_n_incorrect, tciC_cd, tciC_icd]
  exact filter01_partition _ (fun fl hf =>
    tciFlagsCalc_correct01 data fl (List.mem_filter.mp hf).1)

lemma td_pos_iff_mem (flags : List TCIFlag) (tool : String) :
    0 < (flags.filter (fun r => r.tool = tool)).length ↔
      tool ∈ flags.map (fun r => r.tool) := by
  rw [List.length_pos_iff_exists_mem]
  constructor
  · rintro ⟨fl, hfl⟩
    have := List.mem_filter.mp hfl
    rw [List.mem_map]
    exact ⟨fl, this.1, by simpa using this.2⟩
  · intro h
    rw [List.mem_map] at h
    obtain ⟨fl, hfl, ht⟩ := h
    exact ⟨fl, List.mem_filter.mpr ⟨hfl, by simp [ht]⟩⟩

lemma tci_row_for_tool_eq (schemas : DomainSchemas) (data : List ConversationRecord)
    (tool : String) (r : TCIRow) (h : tci_row_for schemas data tool = some r) :
    r.tool = tool := by
  simp only [tci_row_for] at h
  split_ifs at h <;> injection h with h2 <;> subst h2 <;> rfl

lemma tci_row_for_isSome_iff (schemas : DomainSchemas)
    (data : List ConversationRecord) (tool : String) :
    (tci_row_for schemas data tool).isSome = true ↔
      0 < tci_n_correct schemas data tool + tci_n_incorrect schemas data tool := by
  simp only [tci_row_for]
  split_ifs with h
  all_goals
    simp only [Option.isSome_some, Option.isSome_none, true_iff,
      Bool.false_eq_true, false_iff]
  all_goals omega

lemma tciC_row_for_tool_eq (sqrtQ : ℚ → ℚ) (data : List ConversationRecord)
    (tool : String) (r : TCIRowCI) (h : tciC_row_for sqrtQ data tool = some r) :
    r.tool = tool := by
  simp only [tciC_row_for] at h
  split_ifs at h
  injection h with h2
  subst h2
  rfl

lemma tciC_row_for_isSome_iff (sqrtQ : ℚ → ℚ) (data : List ConversationRecord)
    (tool : String) :
    (tciC_row_for sqrtQ data tool).isSome = true ↔
      (0 < tciC_n_correct data tool ∧ 0 < tciC_n_incorrect data tool) := by
  simp only [tciC_row_for]
  split_ifs with h
  all_goals
    simp only [Option.isSome_some, Option.isSome_none, true_iff,
      Bool.false_eq_true, false_iff]
  all_goals omega

lemma tci_calculate_mem_iff (schemas : DomainSchemas)
    (data : List ConversationRecord) (tool : String) :
    tool ∈ (tci_calculate schemas data).map (fun r => r.tool) ↔
      0 < tci_n_correct schemas data tool + tci_n_incorrect schemas data tool := by
  rw [tci_n_sum_eq]
  unfold tci_calculate
  by_cases hf : (tciFlags schemas data).isEmpty = true
  · simp only [hf, if_true]
    have hnil : tciFlags schemas data = [] := List.isEmpty_iff.mp hf
    constructor
    · intro h; simp at h
    · intro h
      rw [show tci_td schemas data tool = [] by rw [tci_td, hnil]; rfl] at h
      simp at h
  · have hf2 : (tciFlags schemas data).isEmpty = false := by
      cases hv : (tciFlags schemas data).isEmpty
      · rfl
      · exact absurd hv hf
    simp only [hf2, Bool.false_eq_true, if_false]
    constructor
    · intro h
      rw [List.mem_map] at h
      obtain ⟨r, hr, hrt⟩ := h
      rw [List.mem_filterMap] at hr
      obtain ⟨k, hk, hks⟩ := hr
      have hkt : r.tool = k := tci_row_for_tool_eq schemas data k r hks
      have hktool : k = tool := by rw [← hkt, hrt]
      subst hktool
      have hsome : (tci_row_for schemas data k).isSome = true := by
        rw [hks]; rfl
      have := (tci_row_for_isSome_iff schemas data k).mp hsome
      rw [tci_n_sum_eq] at this
      exact this
    · intro h
      have hsum : 0 < tci_n_correct schemas data tool + tci_n_incorrect schemas data tool := by
        rw [tci_n_sum_eq]; exact h
      have hsome := (tci_row_for_isSome_iff schemas data tool).mpr hsum
      obtain ⟨r, hr⟩ := Option.isSome_iff_exists.mp hsome
      rw [List.mem_map]
      refine ⟨r, ?_, tci_row_for_tool_eq schemas data tool r hr⟩
      rw [List.mem_filterMap]
      refine ⟨tool, ?_, hr⟩
      rw [List.mem_dedup]
      exact (td_pos_iff_mem (tciFlags schemas data) tool).mp h

lemma tciC_calculate_mem_iff (sqrtQ : ℚ → ℚ) (data : List ConversationRecord)
    (tool : String) :
    tool ∈ (tci_calculate_ci sqrtQ data).map (fun r => r.tool) ↔
      (0 < tciC_n_correct data tool ∧ 0 < tciC_n_incorrect data tool) := by
  unfold tci_calculate_ci
  by_cases hf : (tciFlagsCalc data).isEmpty = true
  · simp only [hf, if_true]
    have hnil : tciFlagsCalc data = [] := List.isEmpty_iff.mp hf
    constructor
    · intro h; simp at h
    · rintro ⟨h1, -⟩
      have hle : tciC_n_correct data tool ≤ (tciC_td data tool).length := by
        rw [tciC_n_correct, tciC_cd]
        exact List.length_filter_le _ _
      rw [show tciC_td data tool = [] by rw [tciC_td, hnil]; rfl] at hle
      simp at hle
      omega
  · have hf2 : (tciFlagsCalc data).isEmpty = false := by
      cases hv : (tciFlagsCalc data).isEmpty
      · rfl
      · exact absurd hv hf
    simp only [hf2, Bool.false_eq_true, if_false]
    constructor
    · intro h
      rw [List.mem_map] at h
      obtain ⟨r, hr, hrt⟩ := h
      rw [List.mem_filterMap] at hr
      obtain ⟨k, hk, hks⟩ := hr
      have hkt : r.tool = k := tciC_row_for_tool_eq sqrtQ data k r hks
      have hktool : k = tool := by rw [← hkt, hrt]
      subst hktool
      have hsome : (tciC_row_for sqrtQ data k).isSome = true := by
        rw [hks]; rfl
      exact (tciC_row_for_isSome_iff sqrtQ data k).mp hsome
    · intro h
      have hsome := (tciC_row_for_isSome_iff sqrtQ data tool).mpr h
      obtain ⟨r, hr⟩ := Option.isSome_iff_exists.mp hsome
      rw [List.mem_map]
      refine ⟨r, ?_, tciC_row_for_tool_eq sqrtQ data tool r hr⟩
      rw [List.mem_filterMap]
      refine ⟨tool, ?_, hr⟩
      rw [List.mem_dedup]
      apply (td_pos_iff_mem (tciFlagsCalc data) tool).mp
      have hle : tciC_n_correct data tool ≤ (tciC_td data tool).length := by
        rw [tciC_n_correct, tciC_cd]
        exact List.length_filter_le _ _
      unfold tciC_td at hle
      omega

/-- C7 amended: a tool appears as a row of the basic TCI table exactly
when n_correct + n_incorrect > 0 (it occurs in at least one expected
plan); the confidence-interval mode includes a tool exactly when BOTH
partitions are non-empty, so a tool with one empty partition is dropped
from the interval table (its point estimate appears only in the basic
table). -/
theorem tci_table_inclusion (schemas : DomainSchemas)
    (data : List ConversationRecord) (tool : String) (sqrtQ : ℚ → ℚ) :
    (tool ∈ (tci_calculate schemas data).map (fun r => r.tool) ↔
        0 < tci_n_correct schemas data tool + tci_n_incorrect schemas data tool) ∧
      (tool ∈ (tci_calculate_ci sqrtQ data).map (fun r => r.tool) ↔
        (0 < tciC_n_correct data tool ∧ 0 < tciC_n_incorrect data tool)) :=
  ⟨tci_calculate_mem_iff schemas data tool, tciC_calculate_mem_iff sqrtQ data tool⟩

/-- Witness for C7 at the one-conversation dataset: tool a with a
non-empty correct partition appears in the basic table and is absent
from the interval table. -/
theorem tci_table_inclusion_witness :
    "a" ∈ (tci_calculate [] dataMatched).map (fun r => r.tool) ∧
      "a" ∉ (tci_calculate_ci (fun _ => 0) dataMatched).map (fun r => r.tool) := by
  constructor
  · exact (tci_table_inclusion [] dataMatched "a" (fun _ => 0)).1.mpr (by decide)
  · intro hmem
    have := (tci_table_inclusion [] dataMatched "a" (fun _ => 0)).2.mp hmem
    revert this
    decide

lemma conv_prf_rows_tools (schemas : DomainSchemas) (c : ConversationRecord) :
    (conv_prf_rows schemas c).map (fun r => r.tool) =
      (group_keys c.gt_tools ++ group_keys c.executed_tools).dedup := by
  simp only [conv_prf_rows]
  apply map_proj_eq
  intro t
  rfl

lemma conv_tci_flags_tools (schemas : DomainSchemas) (c : ConversationRecord) :
    (conv_tci_flags schemas c).map (fun r => r.tool) =
      (c.gt_tools.map getName).dedup := by
  simp only [conv_tci_flags]
  apply map_proj_eq
  intro t
  rfl

lemma tool_seq_no_empty (lst : List ToolInvocation) : "" ∉ tool_seq lst := by
  intro h
  rw [tool_seq, List.mem_filterMap] at h
  obtain ⟨x, hx, hsome⟩ := h
  by_cases hc : x.name.getD "" = ""
  · rw [if_pos hc] at hsome
    exact Option.noConfusion hsome
  · rw [if_neg hc] at hsome
    injection hsome with h2
    exact hc h2

/-- C2 amended: invocations with an empty or missing name are NOT
excluded from the tool-keyed analyses; they are grouped under the
empty-string key, so whenever a conversation's expected list contains
one, both the per-tool PRF table and the TCI table carry a row whose
tool name is the empty string.  Only the sequence-compliance name
extraction (tool_seq) filters such invocations out. -/
theorem empty_name_keyed_under_empty_string (schemas : DomainSchemas)
    (data : List ConversationRecord) (c : ConversationRecord)
    (x : ToolInvocation) (hc : c ∈ data) (hx : x ∈ c.gt_tools)
    (hname : x.name.getD "" = "") :
    (∃ table, per_tool_prf_calculate schemas data = Except.ok table ∧
        "" ∈ table.map (fun r => r.tool)) ∧
      "" ∈ (tci_calculate schemas data).map (fun r => r.tool) ∧
      ∀ lst, "" ∉ tool_seq lst := by
  have hgname : "" ∈ c.gt_tools.map getName := by
    rw [List.mem_map]
    exact ⟨x, hx, hname⟩
  have hrowmem : "" ∈ (conv_prf_rows schemas c).map (fun r => r.tool) := by
    rw [conv_prf_rows_tools, List.mem_dedup, List.mem_append]
    left
    rw [group_keys, List.mem_dedup]
    exact hgname
  obtain ⟨r, hr, hrt⟩ := List.mem_map.mp hrowmem
  have hrraw : r ∈ prf_raw_rows schemas data := by
    rw [prf_raw_rows, List.mem_flatMap]
    exact ⟨c, hc, hr⟩
  have hraw_ne : prf_raw_rows schemas data ≠ [] := List.ne_nil_of_mem hrraw
  refine ⟨?_, ?_, tool_seq_no_empty⟩
  · refine ⟨_, prf_table_ok schemas data hraw_ne, ?_⟩
    have hmp := map_proj_eq (fun r2 : PRFRow => r2.tool)
      (fun t => calc_prf_row t
        (prf_sum (prf_raw_rows schemas data) (fun r2 => r2.tp) t)
        (prf_sum (prf_raw_rows schemas data) (fun r2 => r2.fp) t)
        (prf_sum (prf_raw_rows schemas data) (fun r2 => r2.fn) t)
        (prf_sum (prf_raw_rows schemas data) (fun r2 => r2.requires_tool) t))
      (fun t => rfl) (((prf_raw_rows schemas data).map (fun r2 => r2.tool)).dedup)
    rw [hmp, List.mem_dedup, List.mem_map]
    exact ⟨r, hrraw, hrt⟩
  · rw [tci_calculate_mem_iff, tci_n_sum_eq]
    rw [tci_td]
    apply (td_pos_iff_mem (tciFlags schemas data) "").mpr
    rw [List.mem_map]
    have hflmem : "" ∈ (conv_tci_flags schemas c).map (fun r => r.tool) := by
      rw [conv_tci_flags_tools, List.mem_dedup]
      exact hgname
    obtain ⟨fl, hfl, hflt⟩ := List.mem_map.mp hflmem
    refine ⟨fl, ?_, hflt⟩
    rw [tciFlags, List.mem_flatMap]
    exact ⟨c, hc, hfl⟩

/-- Witness for C2 at the concrete nameless dataset, via the theorem. -/
theorem empty_name_keyed_witness :
    "" ∉ tool_seq [ToolInvocation.mk none []] :=
  (empty_name_keyed_under_empty_string [] dataNoName convNoName
    (ToolInvocation.mk none []) (List.mem_singleton.mpr rfl)
    (List.mem_singleton.mpr rfl) rfl).2.2 [ToolInvocation.mk none []]

/-- C9 amended: the bucket boundaries are simple for length at most 2,
medium for lengths 3 to 5, and complex only up to the implementation's
top bin edge 10^9 (a longer plan falls outside every bucket); a bucket
with no member conversations reports an undefined rate, never 0. -/
theorem bucket_pass1_boundaries (len : Nat) (data : List ConversationRecord) :
    (bucketOf len = some Bucket.simple ↔ len ≤ 2) ∧
      (bucketOf len = some Bucket.medium ↔ 2 < len ∧ len ≤ 5) ∧
      (bucketOf len = some Bucket.complex ↔ 5 < len ∧ len ≤ 1000000000) ∧
      ((bucket_pass1 data).map Prod.fst =
        [Bucket.simple, Bucket.medium, Bucket.complex]) ∧
      (∀ b q, (b, q) ∈ bucket_pass1 data →
        (q = none ↔ data.filter (fun c => bucketOf c.exp_plan_len = some b) = [])) := by
  refine ⟨?_, ?_, ?_, ?_, ?_⟩
  · rw [bucketOf]
    split_ifs with h1 h2 h3 <;> simp <;> omega
  · rw [bucketOf]
    split_ifs with h1 h2 h3 <;> simp <;> omega
  · rw [bucketOf]
    split_ifs with h1 h2 h3 <;> simp <;> omega
  · rfl
  · intro b q hmem
    have main : ∀ (l : List ConversationRecord),
        ((if l.isEmpty then (none : Option ℚ)
            else some (((l.countP (fun c => c.success)) : ℚ) / (l.length : ℚ))) = none ↔
          l = []) := by
      intro l
      by_cases hemp : l.isEmpty = true
      · rw [if_pos hemp]
        simp [List.isEmpty_iff.mp hemp]
      · have hne : l ≠ [] := fun hnil => hemp (by rw [hnil]; rfl)
        have hemp2 : l.isEmpty = false := by
          cases hv : l.isEmpty
          · rfl
          · exact absurd (List.isEmpty_iff.mp hv) hne
        rw [hemp2]
        simp [hne]
    simp only [bucket_pass1, List.map_cons, List.map_nil, List.mem_cons,
      List.not_mem_nil, or_false] at hmem
    rcases hmem with h | h | h <;>
      (rw [Prod.mk.injEq] at h; obtain ⟨hb, hq⟩ := h; subst hb; rw [hq]; exact main _)

/-- Witness for C9: length 3 lands in the medium bucket. -/
theorem bucket_pass1_boundaries_witness :
    bucketOf 3 = some Bucket.medium :=
  (bucket_pass1_boundaries 3 []).2.1.mpr (by omega)
